import Mathlib

/-!
Verification of the core logic of `tanks.py`, a two-player artillery game:
ballistic trajectory sampling, axis-aligned box intersection scanning,
truncation of the path at an obstacle, shot resolution, the turn loop, and
the numeric input loop.
-/

namespace Tanks

/-- Axis-aligned box `(left, right, bottom, top)`, as the 4-tuples used
throughout `tanks.py`. -/
structure Box (α : Type*) where
  left : α
  right : α
  bottom : α
  top : α

/-- The membership test of the scan in `firstInBox`:
`box[0] <= x[i] <= box[1] and box[2] <= y[i] <= box[3]`. -/
def inBox {α : Type*} [LinearOrder α] (b : Box α) (p : α × α) : Bool :=
  decide (b.left ≤ p.1) && decide (p.1 ≤ b.right) &&
    decide (b.bottom ≤ p.2) && decide (p.2 ≤ b.top)

/-- The scanning loop of `firstInBox`, over the list of `(x[i], y[i])` pairs:
index of the first pair inside the box, `-1` if none. -/
def firstInBoxAux {α : Type*} [LinearOrder α] (b : Box α) : List (α × α) → Int
  | [] => -1
  | p :: ps =>
    if inBox b p then 0
    else if firstInBoxAux b ps < 0 then -1 else firstInBoxAux b ps + 1

/-- `firstInBox (x, y, box)` from `tanks.py` (lines 54-76). -/
def firstInBox {α : Type*} [LinearOrder α] (x y : List α) (b : Box α) : Int :=
  firstInBoxAux b (x.zip y)

/-- `endTrajectoryAtIntersection (x, y, box)` from `tanks.py` (lines 86-107):
`(x[0:i], y[0:i])` for the first in-box index `i`, identity when `i < 0`. -/
def endTrajectoryAtIntersection {α : Type*} [LinearOrder α] (x y : List α) (b : Box α) :
    List α × List α :=
  if firstInBox x y b < 0 then (x, y)
  else (x.take (firstInBox x y b).toNat, y.take (firstInBox x y b).toNat)

/-- `np.linspace a b n`: `n` evenly spaced samples from `a` to `b`, both
endpoints included (singleton `[a]` for `n = 1`, empty for `n = 0`). -/
noncomputable def linspace (a b : ℝ) (n : ℕ) : List ℝ :=
  if n ≤ 1 then List.replicate n a
  else (List.range n).map fun i : ℕ => a + (b - a) * (i : ℝ) / ((n : ℝ) - 1)

/-- Flight time computed in `trajectory` (line 48):
`tfinal = vy/g + sqrt((vy/g)**2 + 2*y0/g)` with `vy = v*sin(deg2rad(theta))`. -/
noncomputable def tfinal (y0 v theta g : ℝ) : ℝ :=
  v * Real.sin (theta * (Real.pi / 180)) / g +
    Real.sqrt ((v * Real.sin (theta * (Real.pi / 180)) / g) ^ 2 + 2 * y0 / g)

/-- `trajectory (x0, y0, v, theta, g, npts)` from `tanks.py` (lines 15-52):
the sampled projectile path `(x, y)` with `x = x0 + vx*t` and
`y = y0 + vy*t - 0.5*g*t**2` over `npts` times evenly spaced in `[0, tfinal]`. -/
noncomputable def trajectory (x0 y0 v theta g : ℝ) (npts : ℕ) : List ℝ × List ℝ :=
  let vy := v * Real.sin (theta * (Real.pi / 180))
  let vx := v * Real.cos (theta * (Real.pi / 180))
  let t := linspace 0 (tfinal y0 v theta g) npts
  (t.map fun ti => x0 + vx * ti, t.map fun ti => y0 + vy * ti - 0.5 * g * ti ^ 2)

/-- Python-level errors relevant to the specification's error taxonomy: the
spec's `DomainError`, which never occurs in `tanks.py` (the code contains no
validation and no raise statement), and `ZeroDivisionError`, which Python
float division raises at `g = 0` in the expression `2*y0/g` (line 48). -/
inductive PyError where
  | domainError
  | zeroDivisionError
deriving DecidableEq

/-- Error-channel view of `trajectory`. The source performs no validation; its
only failing operation is the pure-Python float division `2*y0/g` of line 48,
which raises `ZeroDivisionError` when `g = 0` (the numpy-scalar divisions and
the square root of a negative argument only produce inf/NaN with a runtime
warning, not an exception). Every call with `g ≠ 0` returns normally with the
sampled path, whatever the sign of `g` or the shape of the boxes. -/
noncomputable def trajectoryE (x0 y0 v theta g : ℝ) (npts : ℕ) :
    Except PyError (List ℝ × List ℝ) :=
  if g = 0 then Except.error PyError.zeroDivisionError
  else Except.ok (trajectory x0 y0 v theta g npts)

/-- `tankShot (targetBox, obstacleBox, x0, y0, v, theta, g)` from `tanks.py`
(lines 110-141): samples 10000 trajectory points, truncates at the first
intersection with the obstacle box, and reports a hit exactly when the
remaining points meet the target box (`firstInBox(x,y,targetBox) >= 0`). -/
noncomputable def tankShot (targetBox obstacleBox : Box ℝ) (x0 y0 v theta g : ℝ) : Bool :=
  let xy := trajectory x0 y0 v theta g 10000
  let txy := endTrajectoryAtIntersection xy.1 xy.2 obstacleBox
  decide (0 ≤ firstInBox txy.1 txy.2 targetBox)

/-- Player toggle at the bottom of the loop in `playGame`: `1 ↔ 2`. -/
def nextPlayer (p : ℕ) : ℕ := if p = 1 then 2 else 1

/-- The player holding turn `n` of a game that starts with player 1. -/
def playerAtTurn : ℕ → ℕ
  | 0 => 1
  | n + 1 => nextPlayer (playerAtTurn n)

/-- `oneTurn` from `tanks.py` (lines 172-215), with the two prompted numbers
passed in as `v` and `theta`: picks target and origin boxes by player number,
shoots from the center of the origin box, and returns the player number on a
hit and `0` on a miss. -/
noncomputable def oneTurn (tank1box tank2box obstacleBox : Box ℝ) (playerNum : ℕ)
    (v theta g : ℝ) : ℕ :=
  let target := if playerNum = 1 then tank2box else tank1box
  let origin := if playerNum = 1 then tank1box else tank2box
  let x0 := 0.5 * (origin.left + origin.right)
  let y0 := 0.5 * (origin.bottom + origin.top)
  if tankShot target obstacleBox x0 y0 v theta g then playerNum else 0

/-- The `while True` loop of `playGame` (lines 217-242), with the per-turn
prompted numbers supplied by `inputs` and explicit fuel standing for the
unbounded loop: `none` means the loop has not terminated within `fuel` turns. -/
noncomputable def playGameAux (tank1box tank2box obstacleBox : Box ℝ) (g : ℝ)
    (inputs : ℕ → ℝ × ℝ) : ℕ → ℕ → ℕ → Option ℕ
  | 0, _, _ => none
  | fuel + 1, k, playerNum =>
    if oneTurn tank1box tank2box obstacleBox playerNum (inputs k).1 (inputs k).2 g ≠ 0
    then some (oneTurn tank1box tank2box obstacleBox playerNum (inputs k).1 (inputs k).2 g)
    else playGameAux tank1box tank2box obstacleBox g inputs fuel (k + 1) (nextPlayer playerNum)

/-- `playGame` (lines 217-242): the loop starts at turn 0 with `playerNum = 1`. -/
noncomputable def playGame (tank1box tank2box obstacleBox : Box ℝ) (g : ℝ)
    (inputs : ℕ → ℝ × ℝ) (fuel : ℕ) : Option ℕ :=
  playGameAux tank1box tank2box obstacleBox g inputs fuel 0 1

/-- `getNumberInput (prompt, validRange)` from `tanks.py` (lines 245-273), with
the console modelled as a list of attempts: `none` is an attempt that `float()`
fails to parse (the `except` branch prints and loops), `some num` one that
parses to `num`; an exhausted list stands for a session still blocked at the
prompt. Accepts the first parsed value with
`num >= validRange[0] and num <= validRange[1]`. -/
def getNumberInput {α : Type*} [LinearOrder α] (lo hi : α) : List (Option α) → Option α
  | [] => none
  | none :: rest => getNumberInput lo hi rest
  | some num :: rest =>
    if lo ≤ num ∧ num ≤ hi then some num else getNumberInput lo hi rest

/-! Basic facts about the scanning loop. -/

theorem firstInBoxAux_eq {α : Type*} [LinearOrder α] (b : Box α) (l : List (α × α)) :
    firstInBoxAux b l = (l.findIdx? (inBox b)).elim (-1) (fun i => (i : ℤ)) := by
  induction l with
  | nil => rfl
  | cons p ps ih =>
    by_cases hp : inBox b p
    · simp [firstInBoxAux, hp]
    · rw [firstInBoxAux, if_neg hp]
      simp only [List.findIdx?_cons, hp, if_false, List.findIdx?_start_succ]
      cases h : ps.findIdx? (inBox b) with
      | none => simp [ih, h]
      | some i =>
        simp only [ih, h, Option.elim, Option.map_some']
        norm_num

theorem firstInBoxAux_eq_neg_one_iff {α : Type*} [LinearOrder α] (b : Box α)
    (l : List (α × α)) :
    firstInBoxAux b l = -1 ↔ ∀ p ∈ l, inBox b p = false := by
  rw [firstInBoxAux_eq]
  cases h : l.findIdx? (inBox b) with
  | none =>
    simpa using List.findIdx?_eq_none_iff.mp h
  | some i =>
    simp only [Option.elim]
    constructor
    · intro hi; omega
    · intro hall
      rw [List.findIdx?_eq_none_iff.mpr hall] at h
      cases h

theorem firstInBoxAux_nonneg_iff {α : Type*} [LinearOrder α] (b : Box α)
    (l : List (α × α)) :
    0 ≤ firstInBoxAux b l ↔ ∃ p ∈ l, inBox b p = true := by
  rw [firstInBoxAux_eq]
  cases h : l.findIdx? (inBox b) with
  | none =>
    have hall := List.findIdx?_eq_none_iff.mp h
    simp only [Option.elim]
    constructor
    · intro h0; omega
    · rintro ⟨p, hp, hin⟩
      rw [hall p hp] at hin
      cases hin
  | some i =>
    simp only [Option.elim]
    constructor
    · intro _
      obtain ⟨hlen, hin, -⟩ := List.findIdx?_eq_some_iff_getElem.mp h
      exact ⟨l[i], List.getElem_mem hlen, hin⟩
    · intro _; positivity

theorem firstInBoxAux_eq_coe_iff {α : Type*} [LinearOrder α] (b : Box α)
    (l : List (α × α)) (j : ℕ) :
    firstInBoxAux b l = (j : ℤ) ↔
      (∃ p, l[j]? = some p ∧ inBox b p = true) ∧
        ∀ k, k < j → ∀ q, l[k]? = some q → inBox b q = false := by
  rw [firstInBoxAux_eq]
  have hstep : (l.findIdx? (inBox b)).elim (-1 : ℤ) (fun i => (i : ℤ)) = (j : ℤ) ↔
      l.findIdx? (inBox b) = some j := by
    cases h : l.findIdx? (inBox b) with
    | none => simp only [Option.elim]; constructor <;> intro h' <;> [omega; cases h']
    | some i =>
      simp only [Option.elim, Option.some.injEq]
      exact_mod_cast Iff.rfl
  rw [hstep, List.findIdx?_eq_some_iff_getElem]
  constructor
  · rintro ⟨hj, hin, hmin⟩
    refine ⟨⟨l[j], List.getElem?_eq_getElem hj, hin⟩, fun k hk q hq => ?_⟩
    have hkl : k < l.length := lt_trans hk hj
    rw [List.getElem?_eq_getElem hkl, Option.some.injEq] at hq
    have := hmin k hk
    rw [hq] at this
    simpa using this
  · rintro ⟨⟨p, hp, hin⟩, hmin⟩
    have hj : j < l.length := by
      by_contra hc
      rw [List.getElem?_eq_none (le_of_not_lt hc)] at hp
      cases hp
    refine ⟨hj, ?_, fun k hk => ?_⟩
    · rw [List.getElem?_eq_getElem hj, Option.some.injEq] at hp
      rw [hp]; exact hin
    · have := hmin k hk l[k] (List.getElem?_eq_getElem (lt_trans hk hj))
      simp [this]

theorem firstInBoxAux_take_eq_neg_one {α : Type*} [LinearOrder α] (b : Box α)
    (l : List (α × α)) (n : ℕ)
    (h : ∀ k, k < n → ∀ q, l[k]? = some q → inBox b q = false) :
    firstInBoxAux b (l.take n) = -1 := by
  rw [firstInBoxAux_eq_neg_one_iff]
  intro p hp
  rw [List.mem_take_iff_getElem] at hp
  obtain ⟨i, hi, rfl⟩ := hp
  exact h i (lt_of_lt_of_le hi (min_le_left _ _))
    l[i] (List.getElem?_eq_getElem (lt_of_lt_of_le hi (min_le_right _ _)))

theorem zip_take_take {α : Type*} (x y : List α) (n : ℕ) :
    (x.take n).zip (y.take n) = (x.zip y).take n := by
  simp [List.zip_eq_zipWith, List.take_zipWith]

theorem endTrajectory_of_neg {α : Type*} [LinearOrder α] (x y : List α) (b : Box α)
    (h : firstInBox x y b < 0) : endTrajectoryAtIntersection x y b = (x, y) := by
  rw [endTrajectoryAtIntersection, if_pos h]

theorem endTrajectory_of_nonneg {α : Type*} [LinearOrder α] (x y : List α) (b : Box α)
    (h : 0 ≤ firstInBox x y b) :
    endTrajectoryAtIntersection x y b =
      (x.take (firstInBox x y b).toNat, y.take (firstInBox x y b).toNat) := by
  rw [endTrajectoryAtIntersection, if_neg (not_lt.mpr h)]

/-- C3: `firstInBox` returns the lowest index whose point lies inside the box
(inclusive bounds, scanning in generation order) and the sentinel `-1` when no
point of the sequence lies in the box. -/
theorem claim_C3 {α : Type*} [LinearOrder α] (x y : List α) (b : Box α)
    (hlen : x.length = y.length) :
    (firstInBox x y b = -1 ↔ ∀ p ∈ x.zip y, inBox b p = false) ∧
    (∀ j : ℕ, firstInBox x y b = (j : ℤ) ↔
      (∃ p, (x.zip y)[j]? = some p ∧ inBox b p = true) ∧
        ∀ k, k < j → ∀ q, (x.zip y)[k]? = some q → inBox b q = false) := by
  exact ⟨firstInBoxAux_eq_neg_one_iff b (x.zip y),
    fun j => firstInBoxAux_eq_coe_iff b (x.zip y) j⟩

theorem claim_C3_witness :
    firstInBox [(5 : ℚ)] [5] (Box.mk 4 6 4 6) = 0 :=
  ((claim_C3 [(5 : ℚ)] [5] (Box.mk 4 6 4 6) (by decide)).2 0).mpr
    ⟨⟨(5, 5), by decide, by decide⟩, fun k hk => absurd hk (Nat.not_lt_zero k)⟩

/-- C4: `endTrajectoryAtIntersection` is the identity on its input whenever the
point sequence has no point inside the box. -/
theorem claim_C4 {α : Type*} [LinearOrder α] (x y : List α) (b : Box α)
    (h : ∀ p ∈ x.zip y, inBox b p = false) :
    endTrajectoryAtIntersection x y b = (x, y) := by
  apply endTrajectory_of_neg
  rw [firstInBox, (firstInBoxAux_eq_neg_one_iff b (x.zip y)).mpr h]
  decide

theorem claim_C4_witness :
    endTrajectoryAtIntersection [(1 : ℚ), 2] [3, 4] (Box.mk 10 11 10 11) = ([1, 2], [3, 4]) :=
  claim_C4 [(1 : ℚ), 2] [3, 4] (Box.mk 10 11 10 11) (by decide)

/-- C5: when the point sequence does intersect the box, with `j` its first
in-box index, `endTrajectoryAtIntersection` returns exactly the prefix of
points with indices strictly less than `j`, the intersecting point itself
excluded. -/
theorem claim_C5 {α : Type*} [LinearOrder α] (x y : List α) (b : Box α) (j : ℕ)
    (hj : ∃ p, (x.zip y)[j]? = some p ∧ inBox b p = true)
    (hmin : ∀ k, k < j → ∀ q, (x.zip y)[k]? = some q → inBox b q = false) :
    endTrajectoryAtIntersection x y b = (x.take j, y.take j) := by
  have hfi : firstInBox x y b = (j : ℤ) :=
    (firstInBoxAux_eq_coe_iff b (x.zip y) j).mpr ⟨hj, hmin⟩
  rw [endTrajectory_of_nonneg x y b (by rw [hfi]; positivity), hfi, Int.toNat_natCast]

theorem claim_C5_witness :
    endTrajectoryAtIntersection [(0 : ℚ), 5, 9] [0, 5, 9] (Box.mk 4 6 4 6) = ([0], [0]) :=
  claim_C5 [(0 : ℚ), 5, 9] [0, 5, 9] (Box.mk 4 6 4 6) 1
    ⟨(5, 5), by decide, by decide⟩
    (by
      intro k hk q hq
      have hk0 : k = 0 := by omega
      subst hk0
      simp only [List.zip_cons_cons, List.getElem?_cons_zero, Option.some.injEq] at hq
      subst hq
      decide)

/-- C9: `getNumberInput` returns only a value that parsed as a number and lies
within the inclusive range; on unparseable or out-of-range attempts it moves on
to the next attempt instead of returning, and it is a total function (it never
propagates a parse failure to its caller). -/
theorem claim_C9 {α : Type*} [LinearOrder α] (lo hi : α) (inputs : List (Option α)) :
    (∀ r, getNumberInput lo hi inputs = some r → lo ≤ r ∧ r ≤ hi ∧ some r ∈ inputs) ∧
    (∀ rest : List (Option α),
      getNumberInput lo hi (none :: rest) = getNumberInput lo hi rest) ∧
    (∀ v rest, ¬(lo ≤ v ∧ v ≤ hi) →
      getNumberInput lo hi (some v :: rest) = getNumberInput lo hi rest) := by
  refine ⟨?_, fun rest => rfl, fun v rest hv => by rw [getNumberInput, if_neg hv]⟩
  intro r
  induction inputs with
  | nil => intro h; cases h
  | cons i rest ih =>
    cases i with
    | none =>
      intro h
      obtain ⟨h1, h2, h3⟩ := ih h
      exact ⟨h1, h2, List.mem_cons_of_mem _ h3⟩
    | some num =>
      rw [getNumberInput]
      by_cases hin : lo ≤ num ∧ num ≤ hi
      · rw [if_pos hin]
        intro h
        rw [Option.some.injEq] at h
        subst h
        exact ⟨hin.1, hin.2, List.mem_cons_self _ _⟩
      · rw [if_neg hin]
        intro h
        obtain ⟨h1, h2, h3⟩ := ih h
        exact ⟨h1, h2, List.mem_cons_of_mem _ h3⟩

theorem claim_C9_witness :
    getNumberInput (0 : ℚ) 10 [none, some 20, some 5] = some 5 ∧
      (0 : ℚ) ≤ 5 ∧ (5 : ℚ) ≤ 10 :=
  ⟨by decide,
    ((claim_C9 (0 : ℚ) 10 [none, some 20, some 5]).1 5 (by decide)).1,
    ((claim_C9 (0 : ℚ) 10 [none, some 20, some 5]).1 5 (by decide)).2.1⟩

/-! Facts about the sampled trajectory. -/

theorem linspace_length (a b : ℝ) (n : ℕ) : (linspace a b n).length = n := by
  rw [linspace]; split <;> simp

theorem linspace_getLast? (a b : ℝ) (n : ℕ) (hn : 2 ≤ n) :
    (linspace a b n).getLast? = some b := by
  rw [linspace, if_neg (by omega)]
  rw [List.getLast?_eq_getElem?]
  simp only [List.length_map, List.length_range]
  rw [List.getElem?_map, List.getElem?_range (by omega : n - 1 < n)]
  simp only [Option.map_some', Option.some.injEq]
  have h1 : ((n - 1 : ℕ) : ℝ) = (n : ℝ) - 1 := by
    push_cast [Nat.cast_sub (by omega : 1 ≤ n)]
    ring
  have h2 : (n : ℝ) - 1 ≠ 0 := by
    have : (2 : ℝ) ≤ (n : ℝ) := by exact_mod_cast hn
    linarith
  rw [h1]
  field_simp

theorem linspace_getElem?_zero (a b : ℝ) (n : ℕ) (hn : 1 ≤ n) :
    (linspace a b n)[0]? = some a := by
  rw [linspace]
  split
  · have : n = 1 := by omega
    subst this
    rfl
  · rw [List.getElem?_map, List.getElem?_range (by omega : 0 < n)]
    simp

theorem mem_linspace_zero (b : ℝ) (n : ℕ) (hb : 0 ≤ b) (t : ℝ)
    (ht : t ∈ linspace 0 b n) : 0 ≤ t ∧ t ≤ b := by
  rw [linspace] at ht
  split at ht
  · rw [List.eq_of_mem_replicate ht]
    exact ⟨le_refl 0, hb⟩
  · rename_i hn
    obtain ⟨i, hi, rfl⟩ := List.mem_map.mp ht
    rw [List.mem_range] at hi
    have hden : (0 : ℝ) < (n : ℝ) - 1 := by
      have : (2 : ℝ) ≤ (n : ℝ) := by exact_mod_cast (by omega : 2 ≤ n)
      linarith
    have hcast : (i : ℝ) ≤ (n : ℝ) - 1 := by
      have : (i : ℝ) + 1 ≤ (n : ℝ) := by exact_mod_cast hi
      linarith
    constructor
    · have := div_nonneg (mul_nonneg (by linarith : (0:ℝ) ≤ b - 0) (Nat.cast_nonneg i)) hden.le
      linarith [this]
    · rw [sub_zero, zero_add]
      rw [div_le_iff hden]
      calc b * (i : ℝ) ≤ b * ((n : ℝ) - 1) := by
            exact mul_le_mul_of_nonneg_left hcast hb
        _ = b * ((n : ℝ) - 1) := rfl

theorem trajectory_fst (x0 y0 v theta g : ℝ) (n : ℕ) :
    (trajectory x0 y0 v theta g n).1 =
      (linspace 0 (tfinal y0 v theta g) n).map
        (fun ti => x0 + v * Real.cos (theta * (Real.pi / 180)) * ti) := rfl

theorem trajectory_snd (x0 y0 v theta g : ℝ) (n : ℕ) :
    (trajectory x0 y0 v theta g n).2 =
      (linspace 0 (tfinal y0 v theta g) n).map
        (fun ti => y0 + v * Real.sin (theta * (Real.pi / 180)) * ti - 0.5 * g * ti ^ 2) := rfl

theorem trajectory_zip (x0 y0 v theta g : ℝ) (n : ℕ) :
    (trajectory x0 y0 v theta g n).1.zip (trajectory x0 y0 v theta g n).2 =
      (linspace 0 (tfinal y0 v theta g) n).map
        (fun ti => (x0 + v * Real.cos (theta * (Real.pi / 180)) * ti,
          y0 + v * Real.sin (theta * (Real.pi / 180)) * ti - 0.5 * g * ti ^ 2)) := by
  rw [trajectory_fst, trajectory_snd]
  exact List.zip_map' _ _ _

theorem trajectory_length_fst (x0 y0 v theta g : ℝ) (n : ℕ) :
    (trajectory x0 y0 v theta g n).1.length = n := by
  rw [trajectory_fst, List.length_map, linspace_length]

theorem trajectory_length_snd (x0 y0 v theta g : ℝ) (n : ℕ) :
    (trajectory x0 y0 v theta g n).2.length = n := by
  rw [trajectory_snd, List.length_map, linspace_length]

theorem tfinal_nonneg (y0 v theta g : ℝ) (hg : 0 < g) (hy : 0 < y0) :
    0 ≤ tfinal y0 v theta g := by
  rw [tfinal]
  set a := v * Real.sin (theta * (Real.pi / 180)) / g with ha
  have hmono : Real.sqrt (a ^ 2) ≤ Real.sqrt (a ^ 2 + 2 * y0 / g) := by
    apply Real.sqrt_le_sqrt
    have : 0 < 2 * y0 / g := by positivity
    linarith
  rw [Real.sqrt_sq_eq_abs] at hmono
  linarith [neg_abs_le a]

theorem tfinal_root (y0 v theta g : ℝ) (hg : 0 < g) (hy : 0 < y0) :
    0.5 * g * tfinal y0 v theta g ^ 2 -
      v * Real.sin (theta * (Real.pi / 180)) * tfinal y0 v theta g - y0 = 0 := by
  have hg' : g ≠ 0 := ne_of_gt hg
  rw [tfinal]
  set vy := v * Real.sin (theta * (Real.pi / 180)) with hvy
  set s := Real.sqrt ((vy / g) ^ 2 + 2 * y0 / g) with hs
  have hD : 0 ≤ (vy / g) ^ 2 + 2 * y0 / g := by positivity
  have hs2 : s ^ 2 = (vy / g) ^ 2 + 2 * y0 / g := Real.sq_sqrt hD
  have hginv : g * g⁻¹ = 1 := mul_inv_cancel₀ hg'
  linear_combination (g / 2) * hs2 + (vy ^ 2 / g + vy * s + y0) * hginv

theorem trajectory_getLast?_snd (x0 y0 v theta g : ℝ) (n : ℕ)
    (hg : 0 < g) (hy : 0 < y0) (hn : 2 ≤ n) :
    (trajectory x0 y0 v theta g n).2.getLast? = some 0 := by
  rw [trajectory_snd, List.getLast?_map, linspace_getLast? _ _ _ hn]
  simp only [Option.map_some', Option.some.injEq]
  linarith [tfinal_root y0 v theta g hg hy]

/-- C6: `trajectory` uses the flight time
`tFinal = vy/g + sqrt((vy/g)^2 + 2*y0/g)` with `vy = v*sin(theta in radians)`,
which is the unique non-negative root of `0.5*g*t^2 - vy*t - y0 = 0`, so the
last sampled point (taken at `t = tFinal`) has `y = 0` exactly. -/
theorem claim_C6 (x0 y0 v theta g : ℝ) (npts : ℕ)
    (hg : 0 < g) (hy : 0 < y0) (hn : 2 ≤ npts) :
    tfinal y0 v theta g =
      v * Real.sin (theta * (Real.pi / 180)) / g +
        Real.sqrt ((v * Real.sin (theta * (Real.pi / 180)) / g) ^ 2 + 2 * y0 / g) ∧
    0 ≤ tfinal y0 v theta g ∧
    (0.5 * g * tfinal y0 v theta g ^ 2 -
      v * Real.sin (theta * (Real.pi / 180)) * tfinal y0 v theta g - y0 = 0) ∧
    (∀ t : ℝ, 0 ≤ t →
      0.5 * g * t ^ 2 - v * Real.sin (theta * (Real.pi / 180)) * t - y0 = 0 →
      t = tfinal y0 v theta g) ∧
    (trajectory x0 y0 v theta g npts).2.getLast? = some 0 := by
  have hg' : g ≠ 0 := ne_of_gt hg
  refine ⟨rfl, tfinal_nonneg y0 v theta g hg hy, tfinal_root y0 v theta g hg hy, ?_,
    trajectory_getLast?_snd x0 y0 v theta g npts hg hy hn⟩
  intro t ht hroot
  have hr := tfinal_root y0 v theta g hg hy
  set vy := v * Real.sin (theta * (Real.pi / 180)) with hvy
  set T := tfinal y0 v theta g with hT
  have hfac : (t - T) * (0.5 * g * (t + T) - vy) = 0 := by linear_combination hroot - hr
  rcases mul_eq_zero.mp hfac with h | h
  · linarith
  · exfalso
    have hTdef : T = vy / g + Real.sqrt ((vy / g) ^ 2 + 2 * y0 / g) := rfl
    have ht2 : t = 2 * (vy / g) - T := by
      field_simp at h ⊢
      linarith
    have habs : |vy / g| < Real.sqrt ((vy / g) ^ 2 + 2 * y0 / g) := by
      rw [← Real.sqrt_sq_eq_abs]
      apply Real.sqrt_lt_sqrt (sq_nonneg _)
      have : 0 < 2 * y0 / g := by positivity
      linarith
    have : t < 0 := by
      rw [ht2, hTdef]
      have := le_abs_self (vy / g)
      linarith
    linarith

theorem claim_C6_witness :
    (0 : ℝ) < 2 ∧ (0 : ℝ) < 4 ∧ 2 ≤ 2 ∧
      (trajectory 0 4 0 0 2 2).2.getLast? = some 0 :=
  ⟨by norm_num, by norm_num, le_refl 2,
    (claim_C6 0 4 0 0 2 2 (by norm_num) (by norm_num) (le_refl 2)).2.2.2.2⟩

/-- C2 counterexample: with gravity `g = -1 ≤ 0` the code raises nothing — no
`DomainError` exists anywhere in `tanks.py` — and a full 5-point trajectory is
computed and returned from these parameters. -/
theorem claim_C2_counterexample :
    trajectoryE 12.5 8 0 0 (-1) 5 ≠ Except.error PyError.domainError ∧
      (-1 : ℝ) ≤ 0 ∧
      trajectoryE 12.5 8 0 0 (-1) 5 = Except.ok (trajectory 12.5 8 0 0 (-1) 5) ∧
      (trajectory 12.5 8 0 0 (-1) 5).1.length = 5 := by
  have hne : ((-1 : ℝ)) ≠ 0 := by norm_num
  refine ⟨?_, by norm_num, by rw [trajectoryE, if_neg hne],
    trajectory_length_fst 12.5 8 0 0 (-1) 5⟩
  rw [trajectoryE, if_neg hne]
  intro h
  cases h

/-- C2 amended: no `DomainError` exists or is ever raised — the code performs
no validation of gravity or box bounds. For every `g ≠ 0` (in particular every
`g < 0`) `trajectory` returns normally with exactly `npts` sample points in
each coordinate; at `g = 0` exactly, the Python float division `2*y0/g` raises
`ZeroDivisionError`, not `DomainError`. -/
theorem claim_C2 (x0 y0 v theta g : ℝ) (npts : ℕ) :
    (g ≠ 0 →
      trajectoryE x0 y0 v theta g npts = Except.ok (trajectory x0 y0 v theta g npts)) ∧
    (g = 0 →
      trajectoryE x0 y0 v theta g npts = Except.error PyError.zeroDivisionError) ∧
    trajectoryE x0 y0 v theta g npts ≠ Except.error PyError.domainError ∧
    (trajectory x0 y0 v theta g npts).1.length = npts ∧
    (trajectory x0 y0 v theta g npts).2.length = npts := by
  refine ⟨fun hg => by rw [trajectoryE, if_neg hg], fun hg => by rw [trajectoryE, if_pos hg],
    ?_, trajectory_length_fst x0 y0 v theta g npts, trajectory_length_snd x0 y0 v theta g npts⟩
  rw [trajectoryE]
  by_cases hg : g = 0
  · rw [if_pos hg]
    intro h
    cases h
  · rw [if_neg hg]
    intro h
    cases h

theorem claim_C2_witness :
    trajectoryE 12.5 8 0 0 2 5 = Except.ok (trajectory 12.5 8 0 0 2 5) ∧
      trajectoryE 12.5 8 0 0 0 5 = Except.error PyError.zeroDivisionError :=
  ⟨(claim_C2 12.5 8 0 0 2 5).1 (by norm_num), (claim_C2 12.5 8 0 0 0 5).2.1 rfl⟩

/-! Facts about vertical drops (`v = 0`) and about truncation inside `tankShot`. -/

theorem tfinal_v0 (y0 theta g : ℝ) : tfinal y0 0 theta g = Real.sqrt (2 * y0 / g) := by
  rw [tfinal]
  norm_num

theorem trajectory_fst_v0 (x0 y0 theta g : ℝ) (n : ℕ) :
    ∀ xi ∈ (trajectory x0 y0 0 theta g n).1, xi = x0 := by
  intro xi hxi
  rw [trajectory_fst] at hxi
  obtain ⟨t, _, rfl⟩ := List.mem_map.mp hxi
  ring

theorem trajectory_zip_v0 (x0 y0 theta g : ℝ) (n : ℕ) (hg : 0 < g) (hy : 0 < y0) :
    ∀ p ∈ (trajectory x0 y0 0 theta g n).1.zip (trajectory x0 y0 0 theta g n).2,
      p.1 = x0 ∧ 0 ≤ p.2 ∧ p.2 ≤ y0 := by
  intro p hp
  rw [trajectory_zip] at hp
  obtain ⟨t, ht, rfl⟩ := List.mem_map.mp hp
  have hT0 : 0 ≤ tfinal y0 0 theta g := tfinal_nonneg y0 0 theta g hg hy
  have hb := mem_linspace_zero (tfinal y0 0 theta g) n hT0 t ht
  have hD : (0 : ℝ) ≤ 2 * y0 / g := by positivity
  have hsq : Real.sqrt (2 * y0 / g) ^ 2 = 2 * y0 / g := Real.sq_sqrt hD
  have hTv := tfinal_v0 y0 theta g
  have ht2 : t ^ 2 ≤ 2 * y0 / g := by
    rw [← hsq]
    have h2 : t ≤ Real.sqrt (2 * y0 / g) := by rw [← hTv]; exact hb.2
    exact pow_le_pow_left hb.1 h2 2
  have hgy : g * (2 * y0 / g) = 2 * y0 := by field_simp
  have hmul := mul_le_mul_of_nonneg_left ht2 hg.le
  refine ⟨by ring, by nlinarith, by nlinarith [sq_nonneg t, hg.le]⟩

theorem mem_zip_endTrajectory {α : Type*} [LinearOrder α] (x y : List α) (b : Box α)
    (p : α × α)
    (hp : p ∈ (endTrajectoryAtIntersection x y b).1.zip
      (endTrajectoryAtIntersection x y b).2) :
    p ∈ x.zip y := by
  rw [endTrajectoryAtIntersection] at hp
  split at hp
  · exact hp
  · simp only at hp
    rw [zip_take_take] at hp
    exact (List.take_sublist _ _).subset hp

theorem trajectory_zip_getElem?_zero (x0 y0 v theta g : ℝ) (n : ℕ) (hn : 1 ≤ n) :
    ((trajectory x0 y0 v theta g n).1.zip (trajectory x0 y0 v theta g n).2)[0]? =
      some (x0, y0) := by
  rw [trajectory_zip, List.getElem?_map, linspace_getElem?_zero _ _ _ hn]
  simp only [Option.map_some', Option.some.injEq, Prod.mk.injEq]
  constructor <;> ring

theorem trajectory_firstInBox_zero (x0 y0 v theta g : ℝ) (b : Box ℝ)
    (h : inBox b (x0, y0) = true) :
    firstInBox (trajectory x0 y0 v theta g 10000).1
      (trajectory x0 y0 v theta g 10000).2 b = 0 := by
  rw [firstInBox]
  have h0 := trajectory_zip_getElem?_zero x0 y0 v theta g 10000 (by norm_num)
  exact_mod_cast (firstInBoxAux_eq_coe_iff b _ 0).mpr
    ⟨⟨(x0, y0), h0, h⟩, fun k hk => absurd hk (Nat.not_lt_zero k)⟩

theorem trajectory_zip_getLast? (x0 y0 v theta g : ℝ) (n : ℕ) (hn : 2 ≤ n) :
    ((trajectory x0 y0 v theta g n).1.zip (trajectory x0 y0 v theta g n).2).getLast? =
      some (x0 + v * Real.cos (theta * (Real.pi / 180)) * tfinal y0 v theta g,
        y0 + v * Real.sin (theta * (Real.pi / 180)) * tfinal y0 v theta g -
          0.5 * g * tfinal y0 v theta g ^ 2) := by
  rw [trajectory_zip, List.getLast?_map, linspace_getLast? _ _ _ hn]
  rfl

theorem tankShot_drop_hit (tgt ob : Box ℝ) (x0 y0 theta g : ℝ)
    (hg : 0 < g) (hy : 0 < y0)
    (hob : ∀ yy : ℝ, 0 ≤ yy → yy ≤ y0 → inBox ob (x0, yy) = false)
    (htgt : inBox tgt (x0, 0) = true) :
    tankShot tgt ob x0 y0 0 theta g = true := by
  set X := (trajectory x0 y0 0 theta g 10000).1 with hX
  set Y := (trajectory x0 y0 0 theta g 10000).2 with hY
  have hobneg : firstInBox X Y ob = -1 := by
    rw [firstInBox, firstInBoxAux_eq_neg_one_iff]
    intro p hp
    obtain ⟨h1, h2, h3⟩ := trajectory_zip_v0 x0 y0 theta g 10000 hg hy p hp
    have := hob p.2 h2 h3
    rwa [show (x0, p.2) = p from by rw [← h1]] at this
  have hid : endTrajectoryAtIntersection X Y ob = (X, Y) :=
    endTrajectory_of_neg _ _ _ (by rw [hobneg]; decide)
  have hlast : (X.zip Y).getLast? = some (x0, 0) := by
    rw [hX, hY, trajectory_zip_getLast? x0 y0 0 theta g 10000 (by norm_num)]
    have hroot := tfinal_root y0 0 theta g hg hy
    simp only [Option.some.injEq, Prod.mk.injEq]
    exact ⟨by ring, by linarith⟩
  have hmem : (x0, 0) ∈ X.zip Y := List.mem_of_getLast?_eq_some hlast
  have hpos : 0 ≤ firstInBox X Y tgt := by
    rw [firstInBox, firstInBoxAux_nonneg_iff]
    exact ⟨(x0, 0), hmem, htgt⟩
  simp only [tankShot, ← hX, ← hY, hid]
  exact decide_eq_true hpos

/-- C7: with `v = 0` (any angle) and `g > 0`, `y0 > 0`, the trajectory is
produced without any failure: `tFinal = sqrt(2*y0/g)`, all `npts` samples have
`x = x0` (a vertical drop), and `tankShot` misses every target box disjoint
from the vertical segment `{x0} × [0, y0]`. -/
theorem claim_C7 (x0 y0 theta g : ℝ) (npts : ℕ) (tgt obs : Box ℝ)
    (hg : 0 < g) (hy : 0 < y0)
    (hdisj : ∀ yy : ℝ, 0 ≤ yy → yy ≤ y0 → inBox tgt (x0, yy) = false) :
    tfinal y0 0 theta g = Real.sqrt (2 * y0 / g) ∧
    (trajectory x0 y0 0 theta g npts).1.length = npts ∧
    (∀ xi ∈ (trajectory x0 y0 0 theta g npts).1, xi = x0) ∧
    tankShot tgt obs x0 y0 0 theta g = false := by
  refine ⟨tfinal_v0 y0 theta g, trajectory_length_fst x0 y0 0 theta g npts,
    trajectory_fst_v0 x0 y0 theta g npts, ?_⟩
  set X := (trajectory x0 y0 0 theta g 10000).1 with hX
  set Y := (trajectory x0 y0 0 theta g 10000).2 with hY
  have hneg : firstInBox (endTrajectoryAtIntersection X Y obs).1
      (endTrajectoryAtIntersection X Y obs).2 tgt = -1 := by
    rw [firstInBox, firstInBoxAux_eq_neg_one_iff]
    intro p hp
    have hp' : p ∈ X.zip Y := mem_zip_endTrajectory X Y obs p hp
    obtain ⟨h1, h2, h3⟩ := trajectory_zip_v0 x0 y0 theta g 10000 hg hy p hp'
    have := hdisj p.2 h2 h3
    rwa [show (x0, p.2) = p from by rw [← h1]] at this
  simp only [tankShot, ← hX, ← hY]
  rw [hneg]
  decide

theorem claim_C7_witness :
    (0 : ℝ) < 2 ∧ (0 : ℝ) < 2 ∧
      tankShot (Box.mk 0 1 0 1) (Box.mk 30 40 0 50) 5 2 0 0 2 = false := by
  refine ⟨by norm_num, by norm_num, ?_⟩
  have h51 : ¬ ((5 : ℝ) ≤ 1) := by norm_num
  exact (claim_C7 5 2 0 2 3 (Box.mk 0 1 0 1) (Box.mk 30 40 0 50) (by norm_num) (by norm_num)
    (fun yy h1 h2 => by simp [inBox, decide_eq_false h51])).2.2.2

/-- C10: if the shot's origin `(x0, y0)` — the very first sampled point — lies
inside the obstacle box, the truncated trajectory is empty and `tankShot`
misses for every target box, velocity and angle. -/
theorem claim_C10 (obs : Box ℝ) (x0 y0 : ℝ) (h : inBox obs (x0, y0) = true) :
    ∀ (tgt : Box ℝ) (v theta g : ℝ),
      endTrajectoryAtIntersection (trajectory x0 y0 v theta g 10000).1
        (trajectory x0 y0 v theta g 10000).2 obs = ([], []) ∧
      tankShot tgt obs x0 y0 v theta g = false := by
  intro tgt v theta g
  have hfi := trajectory_firstInBox_zero x0 y0 v theta g obs h
  have hempty : endTrajectoryAtIntersection (trajectory x0 y0 v theta g 10000).1
      (trajectory x0 y0 v theta g 10000).2 obs = ([], []) := by
    rw [endTrajectory_of_nonneg _ _ _ (by rw [hfi]), hfi]
    simp
  refine ⟨hempty, ?_⟩
  simp only [tankShot, hempty]
  rw [show firstInBox ([] : List ℝ) ([] : List ℝ) tgt = -1 from rfl]
  decide

theorem claim_C10_witness :
    tankShot (Box.mk 0 1 0 1) (Box.mk 0 100 0 100) 12.5 2.5 3 7 9.8 = false := by
  have h : inBox (Box.mk 0 100 0 100) ((12.5 : ℝ), (2.5 : ℝ)) = true := by
    simp only [inBox, Bool.and_eq_true, decide_eq_true_eq]
    norm_num
  exact (claim_C10 (Box.mk 0 100 0 100) 12.5 2.5 h (Box.mk 0 1 0 1) 3 7 9.8).2

/-- C1: `tankShot` reports a hit if and only if, after truncating the sampled
trajectory at its first intersection with the obstacle box, the remaining
points contain one inside the target box; in particular, whenever the
trajectory enters the obstacle box at a strictly earlier sample index than the
target box, the result is a miss — obstruction takes priority. -/
theorem claim_C1 (tgt obs : Box ℝ) (x0 y0 v theta g : ℝ) :
    (tankShot tgt obs x0 y0 v theta g = true ↔
      ∃ p ∈ (endTrajectoryAtIntersection (trajectory x0 y0 v theta g 10000).1
          (trajectory x0 y0 v theta g 10000).2 obs).1.zip
        (endTrajectoryAtIntersection (trajectory x0 y0 v theta g 10000).1
          (trajectory x0 y0 v theta g 10000).2 obs).2,
        inBox tgt p = true) ∧
    (0 ≤ firstInBox (trajectory x0 y0 v theta g 10000).1
        (trajectory x0 y0 v theta g 10000).2 obs →
      firstInBox (trajectory x0 y0 v theta g 10000).1
          (trajectory x0 y0 v theta g 10000).2 obs <
        firstInBox (trajectory x0 y0 v theta g 10000).1
          (trajectory x0 y0 v theta g 10000).2 tgt →
      tankShot tgt obs x0 y0 v theta g = false) := by
  set X := (trajectory x0 y0 v theta g 10000).1 with hX
  set Y := (trajectory x0 y0 v theta g 10000).2 with hY
  constructor
  · simp only [tankShot, ← hX, ← hY]
    rw [decide_eq_true_iff]
    exact firstInBoxAux_nonneg_iff tgt _
  · intro h0 hlt
    have htoNat : firstInBox X Y tgt = ((firstInBox X Y tgt).toNat : ℤ) :=
      (Int.toNat_of_nonneg (by omega)).symm
    obtain ⟨-, hmin⟩ := (firstInBoxAux_eq_coe_iff tgt (X.zip Y)
      (firstInBox X Y tgt).toNat).mp (by rw [firstInBox] at htoNat ⊢; exact htoNat)
    have hcut : firstInBoxAux tgt ((X.zip Y).take (firstInBox X Y obs).toNat) = -1 := by
      apply firstInBoxAux_take_eq_neg_one
      intro k hk q hq
      exact hmin k (by omega) q hq
    simp only [tankShot, ← hX, ← hY, endTrajectory_of_nonneg X Y obs h0]
    rw [firstInBox, zip_take_take, hcut]
    decide

theorem claim_C1_witness :
    0 ≤ firstInBox (trajectory 5 2 0 0 2 10000).1 (trajectory 5 2 0 0 2 10000).2
        (Box.mk 0 100 1 100) ∧
    firstInBox (trajectory 5 2 0 0 2 10000).1 (trajectory 5 2 0 0 2 10000).2
        (Box.mk 0 100 1 100) <
      firstInBox (trajectory 5 2 0 0 2 10000).1 (trajectory 5 2 0 0 2 10000).2
        (Box.mk 0 100 (-1) 0) ∧
    tankShot (Box.mk 0 100 (-1) 0) (Box.mk 0 100 1 100) 5 2 0 0 2 = false := by
  have hio : firstInBox (trajectory 5 2 0 0 2 10000).1 (trajectory 5 2 0 0 2 10000).2
      (Box.mk 0 100 1 100) = 0 := by
    apply trajectory_firstInBox_zero
    simp only [inBox, Bool.and_eq_true, decide_eq_true_eq]
    norm_num
  have hlast : ((trajectory 5 2 0 0 2 10000).1.zip (trajectory 5 2 0 0 2 10000).2).getLast? =
      some (5, 0) := by
    rw [trajectory_zip_getLast? 5 2 0 0 2 10000 (by norm_num)]
    have hroot := tfinal_root 2 0 0 2 (by norm_num) (by norm_num)
    simp only [Option.some.injEq, Prod.mk.injEq]
    exact ⟨by ring, by linarith⟩
  have hitnn : 0 ≤ firstInBox (trajectory 5 2 0 0 2 10000).1 (trajectory 5 2 0 0 2 10000).2
      (Box.mk 0 100 (-1) 0) := by
    rw [firstInBox, firstInBoxAux_nonneg_iff]
    refine ⟨(5, 0), List.mem_of_getLast?_eq_some hlast, ?_⟩
    simp only [inBox, Bool.and_eq_true, decide_eq_true_eq]
    norm_num
  have hitne : firstInBox (trajectory 5 2 0 0 2 10000).1 (trajectory 5 2 0 0 2 10000).2
      (Box.mk 0 100 (-1) 0) ≠ 0 := by
    intro h00
    obtain ⟨⟨p, hp0, hpin⟩, -⟩ := (firstInBoxAux_eq_coe_iff (Box.mk 0 100 (-1) 0)
      ((trajectory 5 2 0 0 2 10000).1.zip (trajectory 5 2 0 0 2 10000).2) 0).mp
      (by rw [firstInBox] at h00; exact_mod_cast h00)
    rw [trajectory_zip_getElem?_zero 5 2 0 0 2 10000 (by norm_num), Option.some.injEq] at hp0
    subst hp0
    simp only [inBox, Bool.and_eq_true, decide_eq_true_eq] at hpin
    norm_num at hpin
  refine ⟨by rw [hio], by rw [hio]; omega, ?_⟩
  exact (claim_C1 (Box.mk 0 100 (-1) 0) (Box.mk 0 100 1 100) 5 2 0 0 2).2
    (by rw [hio]) (by rw [hio]; omega)

/-! Facts about the turn controller. -/

theorem playerAtTurn_eq (n : ℕ) : playerAtTurn n = if n % 2 = 0 then 1 else 2 := by
  induction n with
  | zero => rfl
  | succ n ih =>
    rw [playerAtTurn, ih, nextPlayer]
    by_cases h : n % 2 = 0
    · rw [if_pos h, if_pos rfl, if_neg (by omega)]
    · rw [if_neg h, if_neg (by norm_num), if_pos (by omega)]

theorem oneTurn_eq_playerNum (t1 t2 ob : Box ℝ) (pN : ℕ) (v theta g : ℝ)
    (h : oneTurn t1 t2 ob pN v theta g ≠ 0) : oneTurn t1 t2 ob pN v theta g = pN := by
  by_cases hs : tankShot (if pN = 1 then t2 else t1) ob
      (0.5 * ((if pN = 1 then t1 else t2).left + (if pN = 1 then t1 else t2).right))
      (0.5 * ((if pN = 1 then t1 else t2).bottom + (if pN = 1 then t1 else t2).top))
      v theta g = true
  · simp only [oneTurn, hs, if_true]
  · exfalso
    apply h
    simp [oneTurn, hs]

theorem playGameAux_run (t1 t2 ob : Box ℝ) (g : ℝ) (inputs : ℕ → ℝ × ℝ) :
    ∀ fuel k n, k ≤ n → n < k + fuel →
      (∀ j, k ≤ j → j < n →
        oneTurn t1 t2 ob (playerAtTurn j) (inputs j).1 (inputs j).2 g = 0) →
      oneTurn t1 t2 ob (playerAtTurn n) (inputs n).1 (inputs n).2 g ≠ 0 →
      playGameAux t1 t2 ob g inputs fuel k (playerAtTurn k) =
        some (oneTurn t1 t2 ob (playerAtTurn n) (inputs n).1 (inputs n).2 g) := by
  intro fuel
  induction fuel with
  | zero => intro k n hkn hlt _ _; omega
  | succ fuel ih =>
    intro k n hkn hlt hmiss hhit
    rw [playGameAux]
    by_cases hkeq : k = n
    · subst hkeq
      rw [if_pos hhit]
    · have hk0 : oneTurn t1 t2 ob (playerAtTurn k) (inputs k).1 (inputs k).2 g = 0 :=
        hmiss k le_rfl (by omega)
      rw [if_neg (by simp [hk0])]
      have hnext : nextPlayer (playerAtTurn k) = playerAtTurn (k + 1) := rfl
      rw [hnext]
      exact ih (k + 1) n (by omega) (by omega) (fun j hj hjn => hmiss j (by omega) hjn) hhit

/-- C8: the game loop starts with player 1, toggles the current player 1↔2
after every non-winning turn (so the players of the successive turns are
strictly 1, 2, 1, 2, ...), `oneTurn` returns the player number on a hit and 0
on a miss, and on the first turn whose shot hits the loop terminates with that
turn's player as winner. -/
theorem claim_C8 (t1 t2 ob : Box ℝ) (g : ℝ) (inputs : ℕ → ℝ × ℝ) (n fuel : ℕ)
    (hmiss : ∀ k, k < n →
      oneTurn t1 t2 ob (playerAtTurn k) (inputs k).1 (inputs k).2 g = 0)
    (hhit : oneTurn t1 t2 ob (playerAtTurn n) (inputs n).1 (inputs n).2 g ≠ 0)
    (hfuel : n < fuel) :
    playerAtTurn 0 = 1 ∧
    (∀ k, playerAtTurn k = if k % 2 = 0 then 1 else 2) ∧
    oneTurn t1 t2 ob (playerAtTurn n) (inputs n).1 (inputs n).2 g = playerAtTurn n ∧
    playGame t1 t2 ob g inputs fuel = some (playerAtTurn n) := by
  have hone := oneTurn_eq_playerNum t1 t2 ob (playerAtTurn n) (inputs n).1 (inputs n).2 g hhit
  have hrun := playGameAux_run t1 t2 ob g inputs fuel 0 n (Nat.zero_le n) (by omega)
    (fun j _ hjn => hmiss j hjn) hhit
  rw [hone] at hrun
  exact ⟨rfl, playerAtTurn_eq, hone, hrun⟩

theorem claim_C8_witness :
    playGame (Box.mk 10 15 7 9) (Box.mk 10 15 0 5) (Box.mk 40 60 0 50) 9.8
      (fun _ => (0, 0)) 1 = some 1 := by
  have hshot : tankShot (Box.mk 10 15 0 5) (Box.mk 40 60 0 50) 12.5 8 0 0 9.8 = true := by
    apply tankShot_drop_hit
    · norm_num
    · norm_num
    · intro yy h1 h2
      have h40 : ¬ ((40 : ℝ) ≤ 12.5) := by norm_num
      simp [inBox, decide_eq_false h40]
    · simp only [inBox, Bool.and_eq_true, decide_eq_true_eq]
      norm_num
  have hhit : oneTurn (Box.mk 10 15 7 9) (Box.mk 10 15 0 5) (Box.mk 40 60 0 50)
      (playerAtTurn 0) ((fun _ : ℕ => ((0 : ℝ), (0 : ℝ))) 0).1
      ((fun _ : ℕ => ((0 : ℝ), (0 : ℝ))) 0).2 9.8 ≠ 0 := by
    have hx : (0.5 * ((10 : ℝ) + 15)) = 12.5 := by norm_num
    have hy : (0.5 * ((7 : ℝ) + 9)) = 8 := by norm_num
    show (if tankShot (Box.mk 10 15 0 5) (Box.mk 40 60 0 50)
        (0.5 * ((10 : ℝ) + 15)) (0.5 * ((7 : ℝ) + 9)) 0 0 9.8 = true
      then (1 : ℕ) else 0) ≠ 0
    rw [hx, hy, hshot]
    norm_num
  exact (claim_C8 (Box.mk 10 15 7 9) (Box.mk 10 15 0 5) (Box.mk 40 60 0 50) 9.8
    (fun _ => (0, 0)) 0 1 (fun k hk => absurd hk (Nat.not_lt_zero k)) hhit
    (by norm_num)).2.2.2

end Tanks
